import Mathlib

/-!
Shallow embedding of the Library Book Usage Analytics System (src/main.py).

Modelling conventions:
* Python `datetime` values are abstracted as natural numbers (`Datetime`);
  `isoformat` is injective on datetimes, so history records store the
  abstract instant itself and the ISO string is modelled by `isoformat`.
* Python `dict` (insertion-ordered, unique keys) is modelled as an
  association list `List (String × α)`; `getKey?` is `d[k]`-style lookup,
  `setKey` is value replacement at an existing key (position-preserving),
  and registration appends at the end, as dict insertion of a fresh key does.
* Python's `sorted(..., key=k, reverse=True)` is a stable descending sort;
  any stable sort is extensionally determined by the key and the input
  order, so it is embedded as the stable insertion sort `sortByKeyDesc`.
* `json.dump` followed by `json.load` is modelled at the level of the JSON
  value tree (`JVal`): the export operation returns the value written to
  the file, and parsing the written file yields that same value.
* The average statistic is computed by Python in IEEE-754 binary64: `/` on
  ints yields the correctly rounded double of the exact quotient, and
  `round(x, 2)` performs two-decimal half-even rounding of the double's
  exact value, converted back to the nearest double. Every finite double
  is an exact rational, so both steps are modelled exactly over `ℚ` by
  `floatRound` and `pyRound2`.
* The unused `analytics_data` defaultdict in `LibraryAnalytics.__init__`
  is omitted: no operation ever reads or writes it.
-/

abbrev Datetime := Nat

/-- Abstraction of `datetime.isoformat()`: an injective rendering of the
abstract instant. -/
def isoformat (d : Datetime) : String := toString d

/-- One record of `Book.checkout_history`: `{'member_id': ..., 'checkout_date': ...}`. -/
structure BookHistoryEntry where
  member_id : String
  checkout_date : Datetime
deriving DecidableEq, Repr

/-- One record of `Member.checkout_history`: `{'book_id': ..., 'checkout_date': ...}`. -/
structure MemberHistoryEntry where
  book_id : String
  checkout_date : Datetime
deriving DecidableEq, Repr

/-- The `Book` class: static bibliographic fields plus derived checkout data. -/
structure Book where
  book_id : String
  title : String
  author : String
  isbn : String
  total_checkouts : Nat
  checkout_history : List BookHistoryEntry
  last_checkout : Option Datetime
deriving DecidableEq, Repr

/-- Embedding of `Book.__init__`: counters start at 0, history empty, no last checkout. -/
def Book.init (book_id title author isbn : String) : Book :=
  { book_id := book_id, title := title, author := author, isbn := isbn,
    total_checkouts := 0, checkout_history := [], last_checkout := none }

/-- Embedding of `Book.record_checkout`: increment the counter, append a history record,
set the last-checkout timestamp. -/
def Book.record_checkout (b : Book) (member_id : String) (checkout_date : Datetime) : Book :=
  { b with
    total_checkouts := b.total_checkouts + 1,
    checkout_history := b.checkout_history ++ [⟨member_id, checkout_date⟩],
    last_checkout := some checkout_date }

/-- The dictionary produced by `Book.to_dict`. -/
structure BookDict where
  book_id : String
  title : String
  author : String
  isbn : String
  total_checkouts : Nat
  last_checkout : Option String
deriving DecidableEq, Repr

/-- Embedding of `Book.to_dict`. -/
def Book.to_dict (b : Book) : BookDict :=
  { book_id := b.book_id, title := b.title, author := b.author, isbn := b.isbn,
    total_checkouts := b.total_checkouts,
    last_checkout := b.last_checkout.map isoformat }

/-- The `Member` class. -/
structure Member where
  member_id : String
  name : String
  email : String
  books_checked_out : List String
  checkout_history : List MemberHistoryEntry
deriving DecidableEq, Repr

/-- Embedding of `Member.__init__`. -/
def Member.init (member_id name email : String) : Member :=
  { member_id := member_id, name := name, email := email,
    books_checked_out := [], checkout_history := [] }

/-- Embedding of `Member.checkout_book`: append to the held list and the history, then
invoke `Book.record_checkout` on the book. The mutated member and book are
returned as a pair. -/
def Member.checkout_book (m : Member) (book : Book) (checkout_date : Datetime) :
    Member × Book :=
  ({ m with
     books_checked_out := m.books_checked_out ++ [book.book_id],
     checkout_history := m.checkout_history ++ [⟨book.book_id, checkout_date⟩] },
   book.record_checkout m.member_id checkout_date)

/-- Embedding of `Member.return_book`: remove the first occurrence of `book_id` from the
held list if present (Python `list.remove`), returning a success flag with
the mutated member. -/
def Member.return_book (m : Member) (book_id : String) : Bool × Member :=
  if book_id ∈ m.books_checked_out then
    (true, { m with books_checked_out := m.books_checked_out.erase book_id })
  else
    (false, m)

/-- The dictionary produced by `Member.to_dict`. -/
structure MemberDict where
  member_id : String
  name : String
  email : String
  books_currently_checked_out : Nat
  total_checkouts : Nat
deriving DecidableEq, Repr

/-- Embedding of `Member.to_dict`. -/
def Member.to_dict (m : Member) : MemberDict :=
  { member_id := m.member_id, name := m.name, email := m.email,
    books_currently_checked_out := m.books_checked_out.length,
    total_checkouts := m.checkout_history.length }

/-- Dict lookup `d[k]` / `k in d` on the association-list model. -/
def getKey? (l : List (String × α)) (k : String) : Option α :=
  match l with
  | [] => none
  | p :: ps => if p.1 = k then some p.2 else getKey? ps k

/-- The test `k in d` as a Bool. -/
def hasKey (l : List (String × α)) (k : String) : Bool := (getKey? l k).isSome

/-- Dict value replacement `d[k] = v` at a key already present: the value is
replaced in place, key order unchanged. -/
def setKey (l : List (String × α)) (k : String) (v : α) : List (String × α) :=
  l.map (fun p => if p.1 = k then (k, v) else p)

/-- The `LibraryAnalytics` registry: insertion-ordered mappings from ids to
books and members. -/
structure LibraryAnalytics where
  books : List (String × Book)
  members : List (String × Member)
deriving DecidableEq, Repr

/-- Embedding of `LibraryAnalytics.__init__`. -/
def LibraryAnalytics.init : LibraryAnalytics := { books := [], members := [] }

/-- Embedding of `LibraryAnalytics.add_book`: insert-if-absent keyed by `book.book_id`. -/
def LibraryAnalytics.add_book (s : LibraryAnalytics) (book : Book) :
    Bool × LibraryAnalytics :=
  if hasKey s.books book.book_id then
    (false, s)
  else
    (true, { s with books := s.books ++ [(book.book_id, book)] })

/-- Embedding of `LibraryAnalytics.add_member`: insert-if-absent keyed by `member.member_id`. -/
def LibraryAnalytics.add_member (s : LibraryAnalytics) (member : Member) :
    Bool × LibraryAnalytics :=
  if hasKey s.members member.member_id then
    (false, s)
  else
    (true, { s with members := s.members ++ [(member.member_id, member)] })

/-- Embedding of `LibraryAnalytics.process_checkout`: fail if either id is unregistered,
otherwise run `Member.checkout_book` and store the mutated member and book
back under their keys (Python mutates the shared objects in place; two keys
never alias one object, so value replacement is faithful). -/
def LibraryAnalytics.process_checkout (s : LibraryAnalytics)
    (member_id book_id : String) (checkout_date : Datetime) :
    Bool × LibraryAnalytics :=
  match getKey? s.members member_id, getKey? s.books book_id with
  | some member, some book =>
      let mb := member.checkout_book book checkout_date
      (true, { s with
               members := setKey s.members member_id mb.1,
               books := setKey s.books book_id mb.2 })
  | _, _ => (false, s)

/-- Stable insertion step for a descending sort: `a` is placed before the
first element whose key is not strictly greater than `a`'s. -/
def insertByKeyDesc (key : α → Nat) (a : α) : List α → List α
  | [] => [a]
  | b :: bs => if key a < key b then b :: insertByKeyDesc key a bs else a :: b :: bs

/-- Stable descending sort by a natural-number key; extensionally equal to
Python `sorted(l, key=key, reverse=True)` (both are stable). -/
def sortByKeyDesc (key : α → Nat) : List α → List α
  | [] => []
  | a :: as => insertByKeyDesc key a (sortByKeyDesc key as)

/-- Embedding of `LibraryAnalytics.get_most_popular_books`: stable-sort books by
`total_checkouts` descending, serialize the first `limit`. -/
def LibraryAnalytics.get_most_popular_books (s : LibraryAnalytics)
    (limit : Nat := 10) : List BookDict :=
  ((sortByKeyDesc (fun b => b.total_checkouts) (s.books.map Prod.snd)).take limit).map
    Book.to_dict

/-- Embedding of `LibraryAnalytics.get_most_active_members`: stable-sort members by
history length descending, serialize the first `limit`. -/
def LibraryAnalytics.get_most_active_members (s : LibraryAnalytics)
    (limit : Nat := 10) : List MemberDict :=
  ((sortByKeyDesc (fun m => m.checkout_history.length) (s.members.map Prod.snd)).take
    limit).map Member.to_dict

/-- Round-half-to-even to an integer: the tie rule shared by IEEE-754
round-to-nearest and Python's decimal rounding. Computed on the reduced
numerator and denominator so that the kernel can evaluate it: `f` is the
floor, `r/den` the fractional part, compared against one half. -/
def roundHalfEven (q : ℚ) : ℤ :=
  let d : ℤ := (q.den : ℤ)
  let f : ℤ := q.num.fdiv d
  let r : ℤ := q.num - f * d
  if 2 * r < d then f
  else if d < 2 * r then f + 1
  else if f % 2 = 0 then f else f + 1

/-- Two-decimal rounding of the EXACT rational value. This follows the
spec's words ("rounded to 2 decimal places" of the quotient); the
program's actual behaviour, which rounds the IEEE-754 double, is
`pyRound2` below — the two disagree, see the C6 counterexample. -/
def round2 (q : ℚ) : ℚ := (roundHalfEven (q * 100) : ℚ) / 100

/-- Base-2 logarithm on naturals by structural recursion on a fuel bound
(`log2fuel n n` equals `Nat.log2 n`: the fuel only needs to cover the
recursion depth). -/
def log2fuel : ℕ → ℕ → ℕ
  | 0, _ => 0
  | fuel + 1, n => if 2 ≤ n then log2fuel fuel (n / 2) + 1 else 0

/-- Floor of the base-2 logarithm of a positive natural. -/
def natLog2 (n : ℕ) : ℕ := log2fuel n n

/-- Whether `2^e ≤ a / b`, for positive naturals `a`, `b`. -/
def pow2Le (e : ℤ) (a b : ℕ) : Bool :=
  match e with
  | .ofNat n => decide (b * 2 ^ n ≤ a)
  | .negSucc n => decide (b ≤ a * 2 ^ (n + 1))

/-- Floor of the base-2 logarithm of a positive rational: the true value
is the two-power bracket of `natLog2 num - natLog2 den`, settled by one
comparison each way. -/
def ilog2 (q : ℚ) : ℤ :=
  let a := q.num.natAbs
  let b := q.den
  let d : ℤ := (natLog2 a : ℤ) - (natLog2 b : ℤ)
  if pow2Le d a b then (if pow2Le (d + 1) a b then d + 1 else d) else d - 1

/-- Multiplication by `2^e` with an integer exponent. -/
def pow2Mul (e : ℤ) (x : ℚ) : ℚ :=
  match e with
  | .ofNat n => x * ((2 ^ n : ℕ) : ℚ)
  | .negSucc n => x / ((2 ^ (n + 1) : ℕ) : ℚ)

/-- Round an exact rational to the nearest IEEE-754 binary64 value
(round-to-nearest, ties to even), returned as the exact rational that the
double denotes. Normals use a 53-bit significand (grid step `2^(e-52)`),
values below `2^-1022` fall on the subnormal grid `2^-1074`, and a result
at or beyond `2^1024` is capped there as an infinity marker (unreachable
for the inputs arising in this program). This is the value Python
produces for `int / int` true division (correctly rounded). -/
def floatRound (q : ℚ) : ℚ :=
  if q.num = 0 then 0
  else
    let sign : ℚ := if q.num < 0 then -1 else 1
    let x : ℚ := if q.num < 0 then -q else q
    let e : ℤ := ilog2 x
    let step : ℤ := if e - 52 < -1074 then -1074 else e - 52
    let r : ℚ := pow2Mul step ((roundHalfEven (pow2Mul (-step) x) : ℚ))
    if 1024 ≤ ilog2 r then sign * ((2 ^ 1024 : ℕ) : ℚ) else sign * r

/-- CPython `round(x, 2)` on a float `x` (represented by its exact
rational value): the correctly-rounded two-decimal half-even rounding of
the double's exact value, converted back to the nearest binary64. -/
def pyRound2 (x : ℚ) : ℚ := floatRound ((roundHalfEven (x * 100) : ℚ) / 100)

/-- The dictionary produced by `get_usage_statistics`. -/
structure UsageStatistics where
  total_books : Nat
  total_members : Nat
  total_checkouts : Nat
  average_checkouts_per_book : ℚ
  generated_at : Datetime
deriving DecidableEq, Repr

/-- Embedding of `LibraryAnalytics.get_usage_statistics`; `now` stands for
`datetime.utcnow()`. -/
def LibraryAnalytics.get_usage_statistics (s : LibraryAnalytics)
    (now : Datetime) : UsageStatistics :=
  let total_books := s.books.length
  let total_members := s.members.length
  let total_checkouts : Nat := (s.books.map (fun p => p.2.total_checkouts)).sum
  let avg_checkouts_per_book : ℚ :=
    if total_books > 0 then floatRound ((total_checkouts : ℚ) / (total_books : ℚ))
    else 0
  { total_books := total_books, total_members := total_members,
    total_checkouts := total_checkouts,
    average_checkouts_per_book := pyRound2 avg_checkouts_per_book,
    generated_at := now }

/-- JSON value tree, the shape written by `json.dump`. -/
inductive JVal where
  | str (s : String)
  | num (q : ℚ)
  | null
  | arr (xs : List JVal)
  | obj (fields : List (String × JVal))

/-- Field access on a parsed JSON object. -/
def JVal.getField (j : JVal) (k : String) : Option JVal :=
  match j with
  | .obj fields => getKey? fields k
  | _ => none

/-- JSON encoding of a book snapshot dictionary. -/
def BookDict.toJson (d : BookDict) : JVal :=
  .obj [("book_id", .str d.book_id), ("title", .str d.title),
        ("author", .str d.author), ("isbn", .str d.isbn),
        ("total_checkouts", .num d.total_checkouts),
        ("last_checkout", match d.last_checkout with
                          | some t => .str t
                          | none => .null)]

/-- JSON encoding of a member snapshot dictionary. -/
def MemberDict.toJson (d : MemberDict) : JVal :=
  .obj [("member_id", .str d.member_id), ("name", .str d.name),
        ("email", .str d.email),
        ("books_currently_checked_out", .num d.books_currently_checked_out),
        ("total_checkouts", .num d.total_checkouts)]

/-- JSON encoding of the statistics dictionary. -/
def UsageStatistics.toJson (st : UsageStatistics) : JVal :=
  .obj [("total_books", .num st.total_books),
        ("total_members", .num st.total_members),
        ("total_checkouts", .num st.total_checkouts),
        ("average_checkouts_per_book", .num st.average_checkouts_per_book),
        ("generated_at", .str (isoformat st.generated_at))]

/-- Embedding of `LibraryAnalytics.export_analytics_to_json`: assemble the report and
write it to `filename`; the function returns the filename, and the JSON
value written to (and re-parsed from) the file is returned alongside it.
`tsNow` and `genNow` stand for the two `datetime.utcnow()` calls. -/
def LibraryAnalytics.export_analytics_to_json (s : LibraryAnalytics)
    (tsNow genNow : Datetime) (filename : String := "analytics_report.json") :
    String × JVal :=
  (filename,
   .obj [("timestamp", .str (isoformat tsNow)),
         ("statistics", (s.get_usage_statistics genNow).toJson),
         ("most_popular_books", .arr ((s.get_most_popular_books 10).map BookDict.toJson)),
         ("most_active_members",
          .arr ((s.get_most_active_members 10).map MemberDict.toJson))])

/-- Running a sequence of `process_checkout` transactions, collecting each
call's boolean result and threading the registry state. -/
def runCheckouts (s : LibraryAnalytics) :
    List (String × String × Datetime) → List Bool × LibraryAnalytics
  | [] => ([], s)
  | op :: rest =>
      ((s.process_checkout op.1 op.2.1 op.2.2).1 ::
        (runCheckouts (s.process_checkout op.1 op.2.1 op.2.2).2 rest).1,
       (runCheckouts (s.process_checkout op.1 op.2.1 op.2.2).2 rest).2)

/-- The number of calls in a transaction trace that reference `book_id` and
succeeded (paired with their boolean results). -/
def successesFor (book_id : String) (ops : List (String × String × Datetime))
    (results : List Bool) : Nat :=
  ((ops.zip results).filter (fun p => p.1.2.1 = book_id ∧ p.2 = true)).length

/-- A caller invoking `return_book` on a registered member of the registry
(the method lives on `Member`; this lifts it to registry state, leaving the
member mapping's other entries and the book mapping untouched by
construction of the call). -/
def LibraryAnalytics.returnBookReg (s : LibraryAnalytics)
    (member_id book_id : String) : LibraryAnalytics :=
  match getKey? s.members member_id with
  | some m => { s with members := setKey s.members member_id (m.return_book book_id).2 }
  | none => s

/-- Registry states reachable through the public operations, with books and
members entering via their constructors (`__init__`), as in the program's
lifecycle. -/
inductive Reachable : LibraryAnalytics → Prop where
  | init : Reachable .init
  | add_book (s : LibraryAnalytics) (id t a i : String) :
      Reachable s → Reachable (s.add_book (Book.init id t a i)).2
  | add_member (s : LibraryAnalytics) (id n e : String) :
      Reachable s → Reachable (s.add_member (Member.init id n e)).2
  | process_checkout (s : LibraryAnalytics) (mid bid : String) (d : Datetime) :
      Reachable s → Reachable (s.process_checkout mid bid d).2
  | return_book (s : LibraryAnalytics) (mid bid : String) :
      Reachable s → Reachable (s.returnBookReg mid bid)

/-! ### Concrete sample data for witness instantiations -/

/-- A registry holding one registered member `M1`. -/
def regWithM1 : LibraryAnalytics :=
  (LibraryAnalytics.init.add_member (Member.init "M1" "N" "E")).2

/-- The registry `regWithM1` after also registering book `B1`. -/
def regWithM1B1 : LibraryAnalytics :=
  (regWithM1.add_book (Book.init "B1" "T" "A" "I")).2

/-- A transaction trace: two checkouts of `B1` by `M1` succeed, one by the
unregistered `MX` fails, one of the unregistered `B2` fails. -/
def c1ops : List (String × String × Datetime) :=
  [("M1", "B1", 3), ("MX", "B1", 4), ("M1", "B1", 5), ("M1", "B2", 6)]

/-- A member currently holding `B1`, `B2`, `B1` (duplicates allowed). -/
def memHold : Member :=
  { member_id := "M9", name := "N", email := "E",
    books_checked_out := ["B1", "B2", "B1"],
    checkout_history := [⟨"B0", 1⟩] }

/-- A book with `n` recorded checkouts by `M1`, as `n` successful
`process_checkout` calls leave it. -/
def bookWithCheckouts (id : String) (n : Nat) : Book :=
  { book_id := id, title := "T", author := "A", isbn := "I",
    total_checkouts := n,
    checkout_history := List.replicate n ⟨"M1", 0⟩,
    last_checkout := if n = 0 then none else some 0 }

/-- A registry with 40 registered books and 107 total checkouts, all of
them on `B0`: exactly the state produced by registering the 40 books and
`M1` and running 107 successful checkouts of `B0`. At this state the
exact-rational two-decimal rounding of the average (2.68) differs from
the program's float result (2.67). -/
def avgState : LibraryAnalytics :=
  { books := ("B0", bookWithCheckouts "B0" 107) ::
      (List.range 39).map (fun i =>
        (toString (i + 1), bookWithCheckouts (toString (i + 1)) 0)),
    members := [("M1", Member.mk "M1" "N" "E" (List.replicate 107 "B0")
      (List.replicate 107 ⟨"B0", 0⟩))] }

/-- A registry reached by registering `M1` and `B1`, checking `B1` out,
and returning it. -/
def c8State : LibraryAnalytics :=
  ((((LibraryAnalytics.init.add_member (Member.init "M1" "N" "E")).2.add_book
      (Book.init "B1" "T" "A" "I")).2.process_checkout "M1" "B1" 7).2.returnBookReg
    "M1" "B1")

/-! ### Lemmas about the association-list dictionary model -/

theorem getKey?_setKey (l : List (String × α)) (k k' : String) (v : α) :
    getKey? (setKey l k v) k' =
      if k' = k then (getKey? l k).map (fun _ => v) else getKey? l k' := by
  induction l with
  | nil => by_cases hk : k' = k <;> simp [setKey, getKey?, hk]
  | cons p ps ih =>
    simp only [setKey] at ih
    simp only [setKey, List.map_cons]
    by_cases hp : p.1 = k
    · by_cases hk : k' = k
      · subst hk
        simp [getKey?, hp, ih]
      · have hk' : ¬(k = k') := fun h => hk h.symm
        simp [getKey?, hp, hk, hk', ih]
    · by_cases hk : k' = k
      · subst hk
        have hp' : ¬(p.1 = k') := hp
        simp [getKey?, hp, hp', ih]
      · by_cases hpk : p.1 = k'
        · simp [getKey?, hp, hpk, hk, ih]
        · simp [getKey?, hp, hpk, hk, ih]

theorem keys_setKey (l : List (String × α)) (k : String) (v : α) :
    (setKey l k v).map Prod.fst = l.map Prod.fst := by
  induction l with
  | nil => rfl
  | cons p ps ih =>
    simp only [setKey] at ih
    by_cases hp : p.1 = k <;> simp [setKey, hp, ih]

theorem hasKey_setKey (l : List (String × α)) (k k' : String) (v : α) :
    hasKey (setKey l k v) k' = hasKey l k' := by
  by_cases hk : k' = k <;> simp only [hasKey, getKey?_setKey, if_pos, if_neg, hk, ite_true,
    ite_false]
  cases getKey? l k <;> simp

theorem getKey?_append (l₁ l₂ : List (String × α)) (k : String) :
    getKey? (l₁ ++ l₂) k =
      match getKey? l₁ k with
      | some v => some v
      | none => getKey? l₂ k := by
  induction l₁ with
  | nil => simp [getKey?]
  | cons p ps ih => by_cases hp : p.1 = k <;> simp [getKey?, hp, ih]

theorem getKey?_mem (l : List (String × α)) (k : String) (v : α)
    (h : getKey? l k = some v) : (k, v) ∈ l := by
  induction l with
  | nil => simp [getKey?] at h
  | cons p ps ih =>
    by_cases hp : p.1 = k
    · simp only [getKey?, if_pos hp] at h
      obtain rfl : p.2 = v := Option.some.inj h
      rw [← hp]
      simp
    · simp only [getKey?, if_neg hp] at h
      exact List.mem_cons_of_mem _ (ih h)

theorem mem_setKey (l : List (String × α)) (k : String) (v : α) (p : String × α)
    (h : p ∈ setKey l k v) : p.2 = v ∨ p ∈ l := by
  induction l with
  | nil => simp [setKey] at h
  | cons q qs ih =>
    simp only [setKey] at ih
    simp only [setKey, List.map_cons, List.mem_cons] at h
    rcases h with h1 | h2
    · by_cases hq : q.1 = k
      · rw [if_pos hq] at h1
        left
        rw [h1]
      · rw [if_neg hq] at h1
        right
        simp [h1]
    · rcases ih h2 with hv | hm
      · exact Or.inl hv
      · exact Or.inr (List.mem_cons_of_mem _ hm)

/-! ### Lemmas about the stable descending sort -/

theorem insertByKeyDesc_split (key : α → Nat) (a : α) (l : List α) :
    ∃ l₁ l₂, l = l₁ ++ l₂ ∧ insertByKeyDesc key a l = l₁ ++ a :: l₂ ∧
      ∀ b ∈ l₁, key a < key b := by
  induction l with
  | nil => exact ⟨[], [], rfl, rfl, by simp⟩
  | cons b bs ih =>
    by_cases h : key a < key b
    · obtain ⟨l₁, l₂, he, hi, hk⟩ := ih
      refine ⟨b :: l₁, l₂, by rw [List.cons_append, ← he], ?_, ?_⟩
      · simp [insertByKeyDesc, h, hi]
      · intro c hc
        rcases List.mem_cons.mp hc with rfl | hc
        · exact h
        · exact hk c hc
    · exact ⟨[], b :: bs, rfl, by simp [insertByKeyDesc, h], by simp⟩

theorem mem_insertByKeyDesc (key : α → Nat) (a x : α) (l : List α) :
    x ∈ insertByKeyDesc key a l ↔ x = a ∨ x ∈ l := by
  obtain ⟨l₁, l₂, he, hi, -⟩ := insertByKeyDesc_split key a l
  subst he
  rw [hi]
  simp [or_comm, or_assoc, or_left_comm]

theorem pairwise_insertByKeyDesc (key : α → Nat) (a : α) (l : List α)
    (h : l.Pairwise (fun x y => key y ≤ key x)) :
    (insertByKeyDesc key a l).Pairwise (fun x y => key y ≤ key x) := by
  induction l with
  | nil => simp [insertByKeyDesc]
  | cons b bs ih =>
    rw [List.pairwise_cons] at h
    by_cases hab : key a < key b
    · rw [insertByKeyDesc, if_pos hab, List.pairwise_cons]
      refine ⟨?_, ih h.2⟩
      intro x hx
      rcases (mem_insertByKeyDesc key a x bs).mp hx with rfl | hx
      · exact Nat.le_of_lt hab
      · exact h.1 x hx
    · rw [insertByKeyDesc, if_neg hab, List.pairwise_cons]
      refine ⟨?_, List.pairwise_cons.mpr h⟩
      intro x hx
      rcases List.mem_cons.mp hx with rfl | hx
      · exact Nat.le_of_not_lt hab
      · exact Nat.le_trans (h.1 x hx) (Nat.le_of_not_lt hab)

theorem pairwise_sortByKeyDesc (key : α → Nat) (l : List α) :
    (sortByKeyDesc key l).Pairwise (fun x y => key y ≤ key x) := by
  induction l with
  | nil => simp [sortByKeyDesc]
  | cons a as ih => exact pairwise_insertByKeyDesc key a _ ih

theorem filter_insertByKeyDesc (key : α → Nat) (a : α) (l : List α) (c : Nat) :
    (insertByKeyDesc key a l).filter (fun x => key x == c)
      = List.filter (fun x => key x == c) (a :: l) := by
  obtain ⟨l₁, l₂, he, hi, hk⟩ := insertByKeyDesc_split key a l
  subst he
  rw [hi]
  by_cases hc : key a = c
  · have h₁ : l₁.filter (fun x => key x == c) = [] := by
      rw [List.filter_eq_nil_iff]
      intro x hx
      have := hk x hx
      simp only [beq_iff_eq]
      omega
    simp [List.filter_append, List.filter_cons, hc, h₁]
  · simp [List.filter_append, List.filter_cons, hc]

theorem filter_sortByKeyDesc (key : α → Nat) (l : List α) (c : Nat) :
    (sortByKeyDesc key l).filter (fun x => key x == c)
      = l.filter (fun x => key x == c) := by
  induction l with
  | nil => rfl
  | cons a as ih =>
    rw [sortByKeyDesc, filter_insertByKeyDesc]
    simp only [List.filter_cons, ih]

/-! ### Lemmas about checkout processing -/

theorem process_checkout_of_miss (s : LibraryAnalytics) (mid bid : String) (d : Datetime)
    (h : getKey? s.members mid = none ∨ getKey? s.books bid = none) :
    s.process_checkout mid bid d = (false, s) := by
  rcases h with h | h
  · simp [LibraryAnalytics.process_checkout, h]
  · rw [LibraryAnalytics.process_checkout, h]
    cases getKey? s.members mid <;> rfl

theorem process_checkout_of_hit (s : LibraryAnalytics) (mid bid : String) (d : Datetime)
    (m : Member) (b : Book) (hm : getKey? s.members mid = some m)
    (hb : getKey? s.books bid = some b) :
    s.process_checkout mid bid d =
      (true, { s with
               members := setKey s.members mid (m.checkout_book b d).1,
               books := setKey s.books bid (m.checkout_book b d).2 }) := by
  rw [LibraryAnalytics.process_checkout, hm, hb]

theorem process_checkout_snd_of_false (s : LibraryAnalytics) (mid bid : String)
    (d : Datetime) (h : (s.process_checkout mid bid d).1 = false) :
    (s.process_checkout mid bid d).2 = s := by
  cases hm : getKey? s.members mid with
  | none => rw [process_checkout_of_miss s mid bid d (Or.inl hm)]
  | some m =>
    cases hb : getKey? s.books bid with
    | none => rw [process_checkout_of_miss s mid bid d (Or.inr hb)]
    | some b => rw [process_checkout_of_hit s mid bid d m b hm hb] at h ⊢; simp at h

theorem total_after_process (s : LibraryAnalytics) (mid bid k : String) (d : Datetime)
    (b : Book) (hb : getKey? s.books k = some b) :
    ∃ b', getKey? (s.process_checkout mid bid d).2.books k = some b' ∧
      b'.total_checkouts = b.total_checkouts +
        (if (s.process_checkout mid bid d).1 = true ∧ k = bid then 1 else 0) := by
  cases hm : getKey? s.members mid with
  | none =>
    rw [process_checkout_of_miss s mid bid d (Or.inl hm)]
    exact ⟨b, hb, by simp⟩
  | some m =>
    cases hbid : getKey? s.books bid with
    | none =>
      rw [process_checkout_of_miss s mid bid d (Or.inr hbid)]
      exact ⟨b, hb, by simp⟩
    | some book =>
      rw [process_checkout_of_hit s mid bid d m book hm hbid]
      by_cases hk : k = bid
      · subst hk
        have hbe : b = book := Option.some.inj (hb.symm.trans hbid)
        subst hbe
        refine ⟨(m.checkout_book b d).2, ?_, ?_⟩
        · simp [getKey?_setKey, hb]
        · simp [Member.checkout_book, Book.record_checkout]
      · refine ⟨b, ?_, by simp [hk]⟩
        simp [getKey?_setKey, hk, hb]

theorem members_hasKey_after_process (s : LibraryAnalytics) (mid bid k : String)
    (d : Datetime) :
    hasKey (s.process_checkout mid bid d).2.members k = hasKey s.members k := by
  cases hm : getKey? s.members mid with
  | none => rw [process_checkout_of_miss s mid bid d (Or.inl hm)]
  | some m =>
    cases hb : getKey? s.books bid with
    | none => rw [process_checkout_of_miss s mid bid d (Or.inr hb)]
    | some b =>
      rw [process_checkout_of_hit s mid bid d m b hm hb]
      exact hasKey_setKey _ _ _ _

theorem runCheckouts_cons (s : LibraryAnalytics) (op : String × String × Datetime)
    (rest : List (String × String × Datetime)) :
    runCheckouts s (op :: rest) =
      ((s.process_checkout op.1 op.2.1 op.2.2).1 ::
        (runCheckouts (s.process_checkout op.1 op.2.1 op.2.2).2 rest).1,
       (runCheckouts (s.process_checkout op.1 op.2.1 op.2.2).2 rest).2) := rfl

theorem runCheckouts_total (ops : List (String × String × Datetime)) :
    ∀ (s : LibraryAnalytics) (bid : String) (b : Book),
    getKey? s.books bid = some b →
    ∃ b', getKey? (runCheckouts s ops).2.books bid = some b' ∧
      b'.total_checkouts = b.total_checkouts +
        successesFor bid ops (runCheckouts s ops).1 := by
  induction ops with
  | nil =>
    intro s bid b hb
    exact ⟨b, hb, by simp [runCheckouts, successesFor]⟩
  | cons op rest ih =>
    intro s bid b hb
    obtain ⟨b₁, hb₁, hc₁⟩ := total_after_process s op.1 op.2.1 bid op.2.2 b hb
    obtain ⟨b', hb', hc'⟩ := ih (s.process_checkout op.1 op.2.1 op.2.2).2 bid b₁ hb₁
    refine ⟨b', by rw [runCheckouts_cons]; exact hb', ?_⟩
    rw [runCheckouts_cons]
    simp only
    rw [hc', hc₁]
    have hsucc : successesFor bid (op :: rest)
        ((s.process_checkout op.1 op.2.1 op.2.2).1 ::
          (runCheckouts (s.process_checkout op.1 op.2.1 op.2.2).2 rest).1) =
        (if (s.process_checkout op.1 op.2.1 op.2.2).1 = true ∧ bid = op.2.1 then 1 else 0)
          + successesFor bid rest
              (runCheckouts (s.process_checkout op.1 op.2.1 op.2.2).2 rest).1 := by
      by_cases hcb : bid = op.2.1
      · by_cases hct : (s.process_checkout op.1 bid op.2.2).1 = true <;>
          simp [successesFor, List.zip_cons_cons, List.filter_cons, ← hcb, hct,
            Nat.add_comm]
      · have hcb' : ¬(op.2.1 = bid) := fun h => hcb h.symm
        simp [successesFor, List.zip_cons_cons, List.filter_cons, hcb, hcb']
    rw [hsucc]
    omega

/-! ### Claim theorems -/

/-- C3: for every registry state, `process_checkout` called with an
unregistered member id or an unregistered book id returns false and leaves
the whole registry (books, members, both mappings) unchanged. -/
theorem process_checkout_unregistered_noop (s : LibraryAnalytics)
    (mid bid : String) (d : Datetime)
    (h : getKey? s.members mid = none ∨ getKey? s.books bid = none) :
    s.process_checkout mid bid d = (false, s) :=
  process_checkout_of_miss s mid bid d h

/-- Witness for C3: a registry with book `B1` and no members rejects a
checkout by `M1` without changing state. -/
theorem process_checkout_unregistered_noop_witness :
    getKey? regWithM1B1.members "MX" = none ∧
    regWithM1B1.process_checkout "MX" "B1" 0 = (false, regWithM1B1) :=
  ⟨by decide,
   process_checkout_unregistered_noop regWithM1B1 "MX" "B1" 0 (Or.inl (by decide))⟩

/-- C4: `add_book` with an already-registered book id (and `add_member`
with an already-registered member id) returns false and leaves the registry
unchanged; the existing entry is not overwritten. -/
theorem add_existing_rejected (s : LibraryAnalytics) (book : Book)
    (member : Member) :
    (hasKey s.books book.book_id = true → s.add_book book = (false, s)) ∧
    (hasKey s.members member.member_id = true → s.add_member member = (false, s)) := by
  constructor
  · intro h
    simp [LibraryAnalytics.add_book, h]
  · intro h
    simp [LibraryAnalytics.add_member, h]

/-- Witness for C4: re-adding `B1` and `M1` to a registry already holding
them is rejected without mutation. -/
theorem add_existing_rejected_witness :
    hasKey regWithM1B1.books "B1" = true ∧
    regWithM1B1.add_book (Book.init "B1" "T2" "A2" "I2") = (false, regWithM1B1) ∧
    hasKey regWithM1B1.members "M1" = true ∧
    regWithM1B1.add_member (Member.init "M1" "N2" "E2") = (false, regWithM1B1) := by
  have h := add_existing_rejected regWithM1B1 (Book.init "B1" "T2" "A2" "I2")
    (Member.init "M1" "N2" "E2")
  exact ⟨by decide, h.1 (by decide), by decide, h.2 (by decide)⟩

/-- C5: `return_book` removes exactly one occurrence of the id from the
held list and returns true when the id is held, returns false leaving the
member unchanged when it is not; in both cases the member's checkout
history and identity fields are untouched, and a registry-level return
leaves every catalog entry untouched. -/
theorem return_book_spec (m : Member) (book_id : String) :
    (book_id ∈ m.books_checked_out →
      (m.return_book book_id).1 = true ∧
      ((m.return_book book_id).2.books_checked_out.count book_id) + 1
        = m.books_checked_out.count book_id ∧
      ∀ x : String, x ≠ book_id →
        (m.return_book book_id).2.books_checked_out.count x
          = m.books_checked_out.count x) ∧
    (book_id ∉ m.books_checked_out → m.return_book book_id = (false, m)) ∧
    (m.return_book book_id).2.checkout_history = m.checkout_history ∧
    (m.return_book book_id).2.member_id = m.member_id ∧
    (m.return_book book_id).2.name = m.name ∧
    (m.return_book book_id).2.email = m.email ∧
    ∀ (s : LibraryAnalytics) (mid : String),
      (s.returnBookReg mid book_id).books = s.books := by
  refine ⟨?_, ?_, ?_, ?_, ?_, ?_, ?_⟩
  · intro h
    rw [Member.return_book, if_pos h]
    refine ⟨rfl, ?_, ?_⟩
    · simp only [List.count_erase_self]
      have hpos : 0 < m.books_checked_out.count book_id :=
        List.count_pos_iff.mpr h
      omega
    · intro x hx
      simp only
      exact List.count_erase_of_ne hx m.books_checked_out
  · intro h
    rw [Member.return_book, if_neg h]
  · rw [Member.return_book]
    split <;> rfl
  · rw [Member.return_book]
    split <;> rfl
  · rw [Member.return_book]
    split <;> rfl
  · rw [Member.return_book]
    split <;> rfl
  · intro s mid
    cases hm : getKey? s.members mid <;>
      simp [LibraryAnalytics.returnBookReg, hm]

/-- Witness for C5: returning `B1` from a member holding `B1, B2, B1`
succeeds, drops the count of `B1` from 2 to 1, and keeps the history. -/
theorem return_book_spec_witness :
    (memHold.return_book "B1").1 = true ∧
    ((memHold.return_book "B1").2.books_checked_out.count "B1") + 1
      = memHold.books_checked_out.count "B1" ∧
    (memHold.return_book "B1").2.checkout_history = memHold.checkout_history := by
  have h := return_book_spec memHold "B1"
  have h1 := h.1 (by decide)
  exact ⟨h1.1, h1.2.1, h.2.2.1⟩

/-- C10: when the held list contains the id (possibly several times),
`return_book` removes exactly the first occurrence, leaving the relative
order of everything else unchanged. -/
theorem return_book_removes_first_occurrence (m : Member) (book_id : String)
    (h : book_id ∈ m.books_checked_out) :
    ∃ l₁ l₂, m.books_checked_out = l₁ ++ book_id :: l₂ ∧ book_id ∉ l₁ ∧
      (m.return_book book_id).2.books_checked_out = l₁ ++ l₂ := by
  obtain ⟨l₁, l₂, hn, he, hr⟩ := List.exists_erase_eq h
  refine ⟨l₁, l₂, he, hn, ?_⟩
  rw [Member.return_book, if_pos h]
  exact hr

/-- Witness for C10: with held list `B1, B2, B1`, returning `B1` removes
the first occurrence. -/
theorem return_book_removes_first_occurrence_witness :
    "B1" ∈ memHold.books_checked_out ∧
    ∃ l₁ l₂, memHold.books_checked_out = l₁ ++ "B1" :: l₂ ∧ "B1" ∉ l₁ ∧
      (memHold.return_book "B1").2.books_checked_out = l₁ ++ l₂ :=
  ⟨by decide, return_book_removes_first_occurrence memHold "B1" (by decide)⟩

/-- C1: from its registration (counter 0), a book's `total_checkouts` after
a trace of `process_checkout` transactions equals the number of calls in
the trace that referenced it and succeeded, regardless of which members
performed them. -/
theorem total_checkouts_after_checkouts (s s₁ : LibraryAnalytics)
    (bid title author isbn : String) (ops : List (String × String × Datetime))
    (hreg : s.add_book (Book.init bid title author isbn) = (true, s₁)) :
    ∃ b', getKey? (runCheckouts s₁ ops).2.books bid = some b' ∧
      b'.total_checkouts = successesFor bid ops (runCheckouts s₁ ops).1 := by
  rw [LibraryAnalytics.add_book] at hreg
  split at hreg
  · exact absurd (congrArg Prod.fst hreg) (by simp)
  · rename_i h
    injection hreg with h1 h2
    have hnone : getKey? s.books bid = none := by
      have h' : ¬((getKey? s.books bid).isSome = true) := by
        simpa [hasKey, Book.init] using h
      cases hk : getKey? s.books bid with
      | none => rfl
      | some b => rw [hk] at h'; simp at h'
    have hlook : getKey? s₁.books bid = some (Book.init bid title author isbn) := by
      rw [← h2]
      simp only
      rw [getKey?_append, hnone]
      simp [getKey?, Book.init]
    obtain ⟨b', hb', hc'⟩ := runCheckouts_total ops s₁ bid _ hlook
    refine ⟨b', hb', ?_⟩
    simpa [Book.init] using hc'

/-- Witness for C1: after registering `B1` and running a four-call trace in
which exactly two calls reference `B1` and succeed, its counter matches the
trace's success count. -/
theorem total_checkouts_after_checkouts_witness :
    regWithM1.add_book (Book.init "B1" "T" "A" "I") = (true, regWithM1B1) ∧
    ∃ b', getKey? (runCheckouts regWithM1B1 c1ops).2.books "B1" = some b' ∧
      b'.total_checkouts = successesFor "B1" c1ops (runCheckouts regWithM1B1 c1ops).1 :=
  ⟨by decide,
   total_checkouts_after_checkouts regWithM1 regWithM1B1 "B1" "T" "A" "I" c1ops
     (by decide)⟩

/-- C2: `get_most_popular_books limit` returns at most `limit` serialized
entries, sorted by `total_checkouts` descending, and for every checkout
count the entries carrying that count form an initial run of the
registration-ordered entries with that count (stability: ties keep
insertion order). -/
theorem get_most_popular_books_spec (s : LibraryAnalytics) (limit : Nat) :
    (s.get_most_popular_books limit).length ≤ limit ∧
    (s.get_most_popular_books limit).Pairwise
      (fun x y => y.total_checkouts ≤ x.total_checkouts) ∧
    ∀ c : Nat, ∃ rest,
      ((s.books.map Prod.snd).map Book.to_dict).filter
          (fun d => d.total_checkouts == c)
        = (s.get_most_popular_books limit).filter
            (fun d => d.total_checkouts == c) ++ rest := by
  refine ⟨?_, ?_, ?_⟩
  · simp only [LibraryAnalytics.get_most_popular_books, List.length_map,
      List.length_take]
    exact Nat.min_le_left _ _
  · have hp := pairwise_sortByKeyDesc (fun b => b.total_checkouts)
      (s.books.map Prod.snd)
    have ht := hp.sublist (List.take_sublist limit _)
    rw [LibraryAnalytics.get_most_popular_books]
    exact (List.pairwise_map).mpr ht
  · intro c
    refine ⟨(((sortByKeyDesc (fun b => b.total_checkouts)
        (s.books.map Prod.snd)).drop limit).filter
          (fun b => b.total_checkouts == c)).map Book.to_dict, ?_⟩
    have hcomp : ((fun d : BookDict => d.total_checkouts == c) ∘ Book.to_dict)
        = (fun b : Book => b.total_checkouts == c) := rfl
    rw [LibraryAnalytics.get_most_popular_books]
    conv_lhs => rw [List.filter_map, hcomp]
    conv_rhs => rw [List.filter_map, hcomp]
    rw [← List.map_append, ← List.filter_append, List.take_append_drop,
      filter_sortByKeyDesc]

section

attribute [local semireducible] Rat.add Rat.mul Rat.inv Rat.sub

/-- Counterexample for C6: at a 40-book registry with 107 total checkouts
(the state 107 successful checkouts of `B0` produce), the program's
average is the double 2.67 (`floatRound (267/100)`), while two-decimal
rounding of the exact rational quotient gives 2.68 — so the claim's "sum
divided by the entry count, rounded to 2 decimal places", read over exact
arithmetic, is false of the code. -/
theorem get_usage_statistics_round_counterexample :
    (avgState.get_usage_statistics 0).average_checkouts_per_book
        ≠ round2 ((((avgState.books.map (fun p => p.2.total_checkouts)).sum : Nat) : ℚ)
            / (avgState.books.length : ℚ)) ∧
    round2 ((107 : ℚ) / 40) = 268 / 100 ∧
    (avgState.get_usage_statistics 0).average_checkouts_per_book
        = floatRound (267 / 100) := by
  refine ⟨by decide, by decide, by decide⟩

/-- C6 (amended): on an empty registry the statistics report zero total
checkouts and zero average; on a nonempty registry the average field is
the IEEE-754 double quotient of the checkout sum by the entry count,
rounded to two decimal places by Python's float `round` (half-even on the
double's exact value, converted back to binary64). -/
theorem get_usage_statistics_float_spec (s : LibraryAnalytics) (now : Datetime) :
    (s.get_usage_statistics now).total_checkouts
        = (s.books.map (fun p => p.2.total_checkouts)).sum ∧
    (s.books = [] →
      (s.get_usage_statistics now).average_checkouts_per_book = 0 ∧
      (s.get_usage_statistics now).total_checkouts = 0) ∧
    (s.books ≠ [] →
      (s.get_usage_statistics now).average_checkouts_per_book
        = pyRound2 (floatRound
            ((((s.books.map (fun p => p.2.total_checkouts)).sum : Nat) : ℚ)
              / (s.books.length : ℚ)))) := by
  refine ⟨rfl, ?_, ?_⟩
  · intro h
    rw [LibraryAnalytics.get_usage_statistics]
    simp only [h, List.map_nil, List.sum_nil, List.length_nil]
    exact ⟨by decide, trivial⟩
  · intro h
    rw [LibraryAnalytics.get_usage_statistics]
    simp only
    rw [if_pos (List.length_pos.mpr h)]

/-- Witness for C6 (amended): the empty registry reports zero average and
zero total, and the one-book registry's average field equals the float
pipeline value. -/
theorem get_usage_statistics_float_spec_witness :
    (LibraryAnalytics.init.get_usage_statistics 0).average_checkouts_per_book = 0 ∧
    (LibraryAnalytics.init.get_usage_statistics 0).total_checkouts = 0 ∧
    (regWithM1B1.get_usage_statistics 0).average_checkouts_per_book
      = pyRound2 (floatRound
          ((((regWithM1B1.books.map (fun p => p.2.total_checkouts)).sum : Nat) : ℚ)
            / (regWithM1B1.books.length : ℚ))) := by
  have h1 := get_usage_statistics_float_spec LibraryAnalytics.init 0
  have h2 := get_usage_statistics_float_spec regWithM1B1 0
  exact ⟨(h1.2.1 rfl).1, (h1.2.1 rfl).2, h2.2.2 (by decide)⟩

end

/-- C7: parsing the JSON written by the export and reading
`statistics.total_books` yields exactly the registry's entry count at
export time. -/
theorem export_statistics_total_books (s : LibraryAnalytics)
    (tsNow genNow : Datetime) (filename : String) :
    (((s.export_analytics_to_json tsNow genNow filename).2.getField
        "statistics").bind (fun j => j.getField "total_books"))
      = some (JVal.num (s.books.length : ℚ)) := by
  rfl

/-- C8: in every registry state reachable through the public operations,
every catalog entry's `total_checkouts` counter equals the length of its
`checkout_history`, and the invariant is preserved by registration,
checkout, return, and the (pure) queries and export. -/
theorem reachable_total_eq_history_length (s : LibraryAnalytics)
    (h : Reachable s) :
    ∀ p ∈ s.books, p.2.total_checkouts = p.2.checkout_history.length := by
  induction h with
  | init =>
    intro p hp
    simp [LibraryAnalytics.init] at hp
  | add_book s' id t a i hr ih =>
    intro p hp
    rw [LibraryAnalytics.add_book] at hp
    split at hp
    · exact ih p hp
    · simp only at hp
      rcases List.mem_append.mp hp with hm | hm
      · exact ih p hm
      · simp only [List.mem_singleton] at hm
        rw [hm]
        simp [Book.init]
  | add_member s' id n e hr ih =>
    intro p hp
    rw [LibraryAnalytics.add_member] at hp
    split at hp
    · exact ih p hp
    · exact ih p hp
  | process_checkout s' mid bid d hr ih =>
    intro p hp
    cases hm : getKey? s'.members mid with
    | none =>
      rw [process_checkout_of_miss s' mid bid d (Or.inl hm)] at hp
      exact ih p hp
    | some m =>
      cases hb : getKey? s'.books bid with
      | none =>
        rw [process_checkout_of_miss s' mid bid d (Or.inr hb)] at hp
        exact ih p hp
      | some b =>
        rw [process_checkout_of_hit s' mid bid d m b hm hb] at hp
        simp only at hp
        rcases mem_setKey _ _ _ _ hp with hv | hmem
        · have hbinv := ih (bid, b) (getKey?_mem _ _ _ hb)
          simp only at hbinv
          rw [hv]
          simp [Member.checkout_book, Book.record_checkout, hbinv]
        · exact ih p hmem
  | return_book s' mid bid hr ih =>
    intro p hp
    cases hm : getKey? s'.members mid with
    | none =>
      simp only [LibraryAnalytics.returnBookReg, hm] at hp
      exact ih p hp
    | some m =>
      simp only [LibraryAnalytics.returnBookReg, hm] at hp
      exact ih p hp

/-- Witness for C8: in the concrete reachable state `c8State`, the single
catalog entry's counter (1) equals its history length. -/
theorem reachable_total_eq_history_length_witness :
    ((Book.init "B1" "T" "A" "I").record_checkout "M1" 7).total_checkouts
      = ((Book.init "B1" "T" "A" "I").record_checkout "M1" 7).checkout_history.length :=
  reachable_total_eq_history_length c8State
    (Reachable.return_book _ "M1" "B1"
      (Reachable.process_checkout _ "M1" "B1" 7
        (Reachable.add_book _ "B1" "T" "A" "I"
          (Reachable.add_member _ "M1" "N" "E" Reachable.init))))
    ("B1", (Book.init "B1" "T" "A" "I").record_checkout "M1" 7) (by decide)

/-- C9: when `process_checkout` succeeds, the only modified state is the
named member (held list and history appended) and the named book (counter,
history, last checkout); key sets of both mappings and every other entry
and member are unchanged. -/
theorem process_checkout_frame (s s' : LibraryAnalytics) (mid bid : String)
    (d : Datetime) (h : s.process_checkout mid bid d = (true, s')) :
    s'.books.map Prod.fst = s.books.map Prod.fst ∧
    s'.members.map Prod.fst = s.members.map Prod.fst ∧
    (∀ k, k ≠ bid → getKey? s'.books k = getKey? s.books k) ∧
    (∀ k, k ≠ mid → getKey? s'.members k = getKey? s.members k) ∧
    ∀ m b, getKey? s.members mid = some m → getKey? s.books bid = some b →
      getKey? s'.members mid = some { m with
          books_checked_out := m.books_checked_out ++ [b.book_id],
          checkout_history := m.checkout_history ++ [⟨b.book_id, d⟩] } ∧
      getKey? s'.books bid = some { b with
          total_checkouts := b.total_checkouts + 1,
          checkout_history := b.checkout_history ++ [⟨m.member_id, d⟩],
          last_checkout := some d } := by
  cases hm : getKey? s.members mid with
  | none =>
    rw [process_checkout_of_miss s mid bid d (Or.inl hm)] at h
    simp at h
  | some m =>
    cases hb : getKey? s.books bid with
    | none =>
      rw [process_checkout_of_miss s mid bid d (Or.inr hb)] at h
      simp at h
    | some b =>
      rw [process_checkout_of_hit s mid bid d m b hm hb] at h
      injection h with h1 h2
      subst h2
      refine ⟨?_, ?_, ?_, ?_, ?_⟩
      · exact keys_setKey _ _ _
      · exact keys_setKey _ _ _
      · intro k hk
        simp only
        rw [getKey?_setKey, if_neg hk]
      · intro k hk
        simp only
        rw [getKey?_setKey, if_neg hk]
      · intro m' b' hm' hb'
        have hme : m = m' := Option.some.inj hm'
        have hbe : b = b' := Option.some.inj hb'
        subst hme
        subst hbe
        constructor
        · simp only
          rw [getKey?_setKey, if_pos rfl, hm]
          rfl
        · simp only
          rw [getKey?_setKey, if_pos rfl, hb]
          rfl

/-- Witness for C9: a successful checkout of `B1` by `M1` preserves both
key sequences. -/
theorem process_checkout_frame_witness :
    (regWithM1B1.process_checkout "M1" "B1" 7).2.books.map Prod.fst
      = regWithM1B1.books.map Prod.fst ∧
    (regWithM1B1.process_checkout "M1" "B1" 7).2.members.map Prod.fst
      = regWithM1B1.members.map Prod.fst := by
  have h := process_checkout_frame regWithM1B1
    (regWithM1B1.process_checkout "M1" "B1" 7).2 "M1" "B1" 7 (by decide)
  exact ⟨h.1, h.2.1⟩
